import Mathlib

/-
  Shallow embedding of src/state_machine.js (cspjs runtime).

  Modelling conventions:
  * JavaScript values that flow through the machine (arguments, errors) are
    modelled by the inductive JSVal; JS truthiness by the function truthy.
  * The three unwind-frame shapes pushed by the source
    ({isError:true, step}, {cleanup:true, fn}, {cleanup:true, step, state})
    become the three constructors of Frame; the dispatch in unwind on
    where.isError / where.fn matches this exactly.
  * The JS array state.unwinding is pushed/popped at its end; we model the
    stack with the list head as the top (push = cons, pop = head), which is
    the same LIFO discipline.
  * Side effects that escape the State (calls of the compiled step function
    this.fn, process.nextTick scheduling, running a cleanup action closure,
    restoreStateVars, the final callback, console.error) are recorded as an
    ordered trace of Event values returned beside the updated State.
  * Cleanup-action closures (fn.apply(context, args)) are identified by a
    Nat label; captureStateVars snapshots are opaque lists of values.
-/

namespace Cspjs

inductive JSVal
  | null
  | undef
  | num (n : Int)
  | str (s : String)
  deriving DecidableEq

/-- JavaScript truthiness for the values we model
    (if (x) { ... } in the source). -/
def truthy : JSVal → Bool
  | JSVal.null => false
  | JSVal.undef => false
  | JSVal.num n => n != 0
  | JSVal.str s => s != ""

inductive Frame
  | errorStep (stepId : Int)
  | cleanupAction (label : Nat)
  | cleanupStep (stepId : Int) (snapshot : List JSVal)
  deriving DecidableEq

inductive Event
  | callFn (args : List JSVal)
  | schedStep
  | schedUnwind
  | runAction (label : Nat)
  | restore (snapshot : List JSVal)
  | finalCb (args : List JSVal)
  | report (msg : String)
  deriving DecidableEq

/-- function State() from the source. installed_catches is the set of step
    ids already holding an error frame (a JS object used as a set). -/
structure State where
  id : Int
  args : List JSVal
  err : JSVal
  unwinding : List Frame
  phi : List Int
  installed_catches : List Int
  waiting : Int
  isFinished : Bool
  isUnwinding : Bool
  abort_with_error : JSVal
  deriving DecidableEq

def State.init : State :=
  { id := 0,
    args := [JSVal.null, JSVal.null],
    err := JSVal.null,
    unwinding := [],
    phi := [],
    installed_catches := [],
    waiting := 0,
    isFinished := false,
    isUnwinding := false,
    abort_with_error := JSVal.null }

/-- StateMachine.prototype.step.  Note the source clears
    this.state.abort_with_error to null and only afterwards reads the same
    field to pass it to this.fn, so the value handed to fn is null. -/
def step (s : State) : State × List Event :=
  let s1 := { s with waiting := s.waiting - 1 }
  if truthy s1.abort_with_error then
    let s2 := { s1 with abort_with_error := JSVal.null }
    (s2, [Event.callFn [s2.abort_with_error]])
  else
    (s1, [Event.callFn s1.args])

/-- StateMachine.prototype.goTo: set id, bump waiting,
    process.nextTick(boundStep). -/
def goTo (s : State) (id : Int) : State × List Event :=
  ({ s with id := id, waiting := s.waiting + 1 }, [Event.schedStep])

/-- StateMachine.prototype.start. -/
def start (s : State) : State × List Event :=
  goTo s 1

/-- The closure state of the one-shot continuation returned by thenTo:
    the captured var done and the captured target step id. -/
structure Cont where
  done : Bool
  target : Int
  deriving DecidableEq

/-- StateMachine.prototype.thenTo: increments waiting immediately and
    returns the fresh continuation closure. -/
def thenTo (s : State) (id : Int) : State × Cont :=
  ({ s with waiting := s.waiting + 1 }, { done := false, target := id })

/-- Invoking the continuation returned by thenTo.  The abort branch in the
    source reads _state.abort_with_error without clearing it and calls fn
    with it; the done guard only protects the normal branch. -/
def contInvoke (c : Cont) (s : State) (args : List JSVal) :
    Cont × State × List Event :=
  let s1 := { s with waiting := s.waiting - 1 }
  if truthy s1.abort_with_error then
    (c, s1, [Event.callFn [s1.abort_with_error]])
  else if !c.done then
    ({ c with done := true }, { s1 with id := c.target }, [Event.callFn args])
  else
    (c, s1, [Event.report "Callback called repeatedly!"])

/-- StateMachine.prototype.callback: stores the whole argument list into
    state.args, the first argument (undefined when absent) into state.err,
    and schedules the unwind protocol. -/
def callback (s : State) (args : List JSVal) : State × List Event :=
  ({ s with args := args, err := args.headD JSVal.undef }, [Event.schedUnwind])

/-- One tick of StateMachine.prototype.unwind. -/
def unwind (s : State) : State × List Event :=
  match s.unwinding with
  | w :: rest =>
    let s1 := { s with unwinding := rest, isUnwinding := true }
    match w with
    | Frame.errorStep stepId =>
      if truthy s1.err then goTo s1 stepId
      else (s1, [Event.schedUnwind])
    | Frame.cleanupAction label =>
      (s1, [Event.runAction label, Event.schedUnwind])
    | Frame.cleanupStep stepId snap =>
      let r := goTo s1 stepId
      (r.1, Event.restore snap :: r.2)
  | [] =>
    if !s.isFinished then
      ({ s with waiting := 0, isFinished := true }, [Event.finalCb s.args])
    else
      (s, [])

/-- StateMachine.prototype.pushCleanupAction; the closure over
    (context, fn, args) is identified by its label. -/
def pushCleanupAction (s : State) (label : Nat) : State :=
  { s with unwinding := Frame.cleanupAction label :: s.unwinding }

/-- StateMachine.prototype.pushCleanupStep; the captureStateVars() snapshot
    is supplied by the (external) compiled code. -/
def pushCleanupStep (s : State) (id : Int) (snap : List JSVal) : State :=
  { s with unwinding := Frame.cleanupStep id snap :: s.unwinding }

/-- StateMachine.prototype.pushErrorStep. -/
def pushErrorStep (s : State) (id : Int) : State :=
  if id ∈ s.installed_catches then s
  else
    { s with unwinding := Frame.errorStep id :: s.unwinding,
             installed_catches := id :: s.installed_catches }

/-- StateMachine.prototype.pushPhi. -/
def pushPhi (s : State) (id : Int) : State :=
  { s with phi := id :: s.phi }

/-- StateMachine.prototype.phi: pop the phi stack and goTo there.  A pop of
    an empty JS array would produce an undefined step id; that degenerate
    call is outside the model (the state is returned unchanged). -/
def phiStep (s : State) : State × List Event :=
  match s.phi with
  | p :: rest => goTo { s with phi := rest } p
  | [] => (s, [])

/-- The abort member of the control API object built by controlAPIMaker. -/
def abort (s : State) (err : JSVal) : State × List Event :=
  if s.waiting > 0 then ({ s with abort_with_error := err }, [])
  else callback s [err]

/-- The isWaiting getter of the control API. -/
def isWaiting (s : State) : Bool :=
  s.waiting > 0

/-
  JumpTable.  The JS this.stepIDs is a sparse array written by
  this.stepIDs[ci[j]] = sum; we model it as a function Int → Option Int
  built by successive point updates, which reproduces the last-write-wins
  semantics of repeated array assignment.  An absent entry is none
  (JS undefined).
-/

/-- One array-cell assignment this.stepIDs[v] = s. -/
def setStep (f : Int → Option Int) (v : Int) (stepId : Int) :
    Int → Option Int :=
  fun x => if x = v then some stepId else f x

/-- The inner loop over ci = cases[i]: assign the same cursor value to
    every case value of the block. -/
def assignBlock (f : Int → Option Int) (ci : List Int) (sum : Int) :
    Int → Option Int :=
  ci.foldl (fun g v => setStep g v sum) f

/-- The outer loop of the JumpTable constructor over the blocks, paired as
    (cases[i], blockSizes[i]); threads the write table and the cursor sum,
    returning both with the final cursor (which becomes beyondID). -/
def assignAll (f : Int → Option Int) (sum : Int) :
    List (List Int × Int) → (Int → Option Int) × Int
  | [] => (f, sum)
  | (ci, bs) :: rest => assignAll (assignBlock f ci sum) (sum + 1 + bs) rest

structure JumpTable where
  id : Int
  stepIDs : Int → Option Int
  beyondID : Int

/-- function JumpTable(sm, id, cases, blockSizes).  The loop runs over the
    indices of blockSizes with ci = cases[i]; console.assert in the caller
    demands equal lengths, which zip realises. -/
def JumpTable.make (id : Int) (cases : List (List Int))
    (blockSizes : List Int) : JumpTable :=
  let r := assignAll (fun _ => none) (id + 1) (cases.zip blockSizes)
  { id := id, stepIDs := r.1, beyondID := r.2 }

/-- The JS truthiness test !stepID on the looked-up entry: undefined
    (absent) and 0 are both falsy. -/
def truthyOptInt : Option Int → Bool
  | none => false
  | some n => n != 0

/-- The message of the Error thrown by jumpToCase. -/
def jumpErrMsg (id : Int) (caseVal : Int) : String :=
  "Unhandled case '" ++ toString caseVal ++ "' at step " ++ toString id

/-- JumpTable.prototype.jumpToCase.  pushPhi(beyondID) runs first, exactly
    as in the source; a throw propagates to the caller carrying the state
    as mutated so far (Except.error), otherwise goTo(stepID) runs. -/
def jumpToCase (jt : JumpTable) (s : State) (caseVal : Int) :
    Except (String × State) (State × List Event) :=
  let s1 := pushPhi s jt.beyondID
  let stepID := jt.stepIDs caseVal
  if truthyOptInt stepID then Except.ok (goTo s1 (stepID.getD 0))
  else Except.error (jumpErrMsg jt.id caseVal, s1)

/-- StateMachine.prototype.jumpTable.  The cache cachedJumpTable is a
    function Int → Option JumpTable; cases is None when the call omits it
    (JS !cases).  The last Bool reports whether the call executed
    new JumpTable(...), i.e. whether a table was constructed. -/
def smJumpTable (cache : Int → Option JumpTable) (id : Int)
    (cases : Option (List (List Int))) (blockSizes : List Int) :
    Option JumpTable × (Int → Option JumpTable) × Bool :=
  match cases with
  | none => (cache id, cache, false)
  | some cs =>
    let jt := JumpTable.make id cs blockSizes
    (some jt, fun x => if x = id then some jt else cache x, true)

/-
  A small operation vocabulary over the machine: every State-mutating entry
  point of the source, with external inputs (continuation closure state,
  invocation arguments, snapshots, looked-up jump data) supplied as
  parameters.  Used to state lifetime invariants ("for the entire remaining
  lifetime of the Driver", "never invoked again").
-/
inductive Op
  | step
  | goTo (id : Int)
  | thenToReg (id : Int)
  | contInvoke (done : Bool) (target : Int) (args : List JSVal)
  | callback (args : List JSVal)
  | unwind
  | pushCleanupAction (label : Nat)
  | pushCleanupStep (id : Int) (snap : List JSVal)
  | pushErrorStep (id : Int)
  | pushPhi (id : Int)
  | phi
  | jumpToCase (beyondID : Int) (stepID : Option Int)
  | abort (err : JSVal)

def applyOp (s : State) : Op → State × List Event
  | Op.step => step s
  | Op.goTo id => goTo s id
  | Op.thenToReg id => ((thenTo s id).1, [])
  | Op.contInvoke d t args => (contInvoke { done := d, target := t } s args).2
  | Op.callback args => callback s args
  | Op.unwind => unwind s
  | Op.pushCleanupAction label => (pushCleanupAction s label, [])
  | Op.pushCleanupStep id snap => (pushCleanupStep s id snap, [])
  | Op.pushErrorStep id => (pushErrorStep s id, [])
  | Op.pushPhi id => (pushPhi s id, [])
  | Op.phi => phiStep s
  | Op.jumpToCase b st =>
    let s1 := pushPhi s b
    if truthyOptInt st then goTo s1 (st.getD 0) else (s1, [])
  | Op.abort err => abort s err

def applyOps (s : State) : List Op → State × List Event
  | [] => (s, [])
  | op :: rest =>
    let r1 := applyOp s op
    let r2 := applyOps r1.1 rest
    (r2.1, r1.2 ++ r2.2)

/-- n successive calls of pushErrorStep(i) on the same machine. -/
def iterPushError (s : State) (i : Int) : Nat → State
  | 0 => s
  | n + 1 => pushErrorStep (iterPushError s i n) i

/-- How many error-step frames for step id i the unwind stack holds. -/
def countErrorFrames (i : Int) (l : List Frame) : Nat :=
  l.count (Frame.errorStep i)

/-
  Helper lemmas.
-/

lemma applyOps_append (s : State) (a b : List Op) :
    applyOps s (a ++ b)
      = ((applyOps (applyOps s a).1 b).1,
         (applyOps s a).2 ++ (applyOps (applyOps s a).1 b).2) := by
  induction a generalizing s with
  | nil => simp [applyOps]
  | cons op rest ih => simp [applyOps, ih, List.append_assoc]

lemma applyOps_cons (s : State) (op : Op) (rest : List Op) :
    applyOps s (op :: rest)
      = ((applyOps (applyOp s op).1 rest).1,
         (applyOp s op).2 ++ (applyOps (applyOp s op).1 rest).2) := rfl

lemma unwind_finished (s : State) (h : s.isFinished = true) :
    (unwind s).1.isFinished = true ∧
      ∀ args, Event.finalCb args ∉ (unwind s).2 := by
  rcases huw : s.unwinding with _ | ⟨w, rest⟩
  · simp [unwind, huw, h]
  · rcases w with stepId | label | ⟨stepId, snap⟩ <;>
      simp [unwind, huw, goTo, h] <;> split <;> simp [goTo, h]

/-- Once isFinished is set, no single operation resets it or emits the
    terminal callback event. -/
lemma applyOp_finished (s : State) (op : Op) (h : s.isFinished = true) :
    (applyOp s op).1.isFinished = true ∧
      ∀ args, Event.finalCb args ∉ (applyOp s op).2 := by
  cases op with
  | step => simp [applyOp, step]; split <;> simp [h]
  | goTo id => simp [applyOp, goTo, h]
  | thenToReg id => simp [applyOp, thenTo, h]
  | contInvoke d t args =>
    simp [applyOp, contInvoke]; split <;> [skip; split] <;> simp [h]
  | callback args => simp [applyOp, callback, h]
  | unwind => exact unwind_finished s h
  | pushCleanupAction label => simp [applyOp, pushCleanupAction, h]
  | pushCleanupStep id snap => simp [applyOp, pushCleanupStep, h]
  | pushErrorStep id =>
    simp [applyOp, pushErrorStep]; split <;> simp [h]
  | pushPhi id => simp [applyOp, pushPhi, h]
  | phi =>
    simp [applyOp, phiStep]
    rcases s.phi with _ | ⟨p, rest⟩ <;> simp [goTo, h]
  | jumpToCase b st =>
    simp [applyOp]; split <;> simp [goTo, pushPhi, h]
  | abort err =>
    simp [applyOp, abort]; split <;> simp [callback, h]

lemma applyOps_finished (s : State) (ops : List Op) (h : s.isFinished = true) :
    (applyOps s ops).1.isFinished = true ∧
      ∀ args, Event.finalCb args ∉ (applyOps s ops).2 := by
  induction ops generalizing s with
  | nil => simpa [applyOps] using h
  | cons op rest ih =>
    obtain ⟨h1, h2⟩ := applyOp_finished s op h
    obtain ⟨h3, h4⟩ := ih _ h1
    refine ⟨by simpa [applyOps] using h3, ?_⟩
    intro args
    simp only [applyOps, List.mem_append]
    exact fun hc => hc.elim (h2 args) (h4 args)

/-- No operation ever removes a step id from installed_catches. -/
lemma applyOp_installed (s : State) (op : Op) (i : Int)
    (h : i ∈ s.installed_catches) :
    i ∈ (applyOp s op).1.installed_catches := by
  cases op with
  | step => simp [applyOp, step]; split <;> simp [h]
  | goTo id => simp [applyOp, goTo, h]
  | thenToReg id => simp [applyOp, thenTo, h]
  | contInvoke d t args =>
    simp [applyOp, contInvoke]; split <;> [skip; split] <;> simp [h]
  | callback args => simp [applyOp, callback, h]
  | unwind =>
    rcases huw : s.unwinding with _ | ⟨w, rest⟩
    · simp [applyOp, unwind, huw]; split <;> simp [h]
    · rcases w with stepId | label | ⟨stepId, snap⟩ <;>
        simp [applyOp, unwind, huw, goTo, h] <;> split <;> simp [goTo, h]
  | pushCleanupAction label => simp [applyOp, pushCleanupAction, h]
  | pushCleanupStep id snap => simp [applyOp, pushCleanupStep, h]
  | pushErrorStep id =>
    simp [applyOp, pushErrorStep]; split <;> simp [h]
  | pushPhi id => simp [applyOp, pushPhi, h]
  | phi =>
    simp [applyOp, phiStep]
    rcases s.phi with _ | ⟨p, rest⟩ <;> simp [goTo, h]
  | jumpToCase b st =>
    simp [applyOp]; split <;> simp [goTo, pushPhi, h]
  | abort err =>
    simp [applyOp, abort]; split <;> simp [callback, h]

lemma applyOps_installed (s : State) (ops : List Op) (i : Int)
    (h : i ∈ s.installed_catches) :
    i ∈ (applyOps s ops).1.installed_catches := by
  induction ops generalizing s with
  | nil => simpa [applyOps] using h
  | cons op rest ih =>
    simpa [applyOps] using ih _ (applyOp_installed s op i h)

lemma pushErrorStep_mem (s : State) (i : Int) :
    i ∈ (pushErrorStep s i).installed_catches := by
  unfold pushErrorStep
  split
  · assumption
  · simp

lemma pushErrorStep_of_installed (t : State) (i : Int)
    (h : i ∈ t.installed_catches) : pushErrorStep t i = t := by
  unfold pushErrorStep
  rw [if_pos h]

lemma iterPushError_eq_push (s : State) (i : Int) (n : Nat) (hn : 0 < n) :
    iterPushError s i n = pushErrorStep s i := by
  induction n with
  | zero => omega
  | succ m ih =>
    rcases Nat.eq_zero_or_pos m with hm | hm
    · subst hm; rfl
    · show pushErrorStep (iterPushError s i m) i = _
      rw [ih hm, pushErrorStep_of_installed _ _ (pushErrorStep_mem s i)]

/-- Registering a run of cleanup actions only prepends the corresponding
    frames, in reverse order, to the unwind stack. -/
lemma applyOps_pushCleanups (labels : List Nat) (s : State) :
    applyOps s (labels.map Op.pushCleanupAction)
      = ({ s with
            unwinding := (labels.map Frame.cleanupAction).reverse
              ++ s.unwinding }, []) := by
  induction labels generalizing s with
  | nil => cases s; simp [applyOps]
  | cons l ls ih =>
    cases s
    simp [applyOps, applyOp, pushCleanupAction, ih, List.append_assoc]

/-- Draining an unwind stack of cleanup-action frames: each scheduled tick
    pops one frame and runs its action, the final tick completes. -/
lemma drain_cleanups (fs : List Nat) (s : State)
    (huw : s.unwinding = fs.map Frame.cleanupAction)
    (hfin : s.isFinished = false) :
    (applyOps s (List.replicate (fs.length + 1) Op.unwind)).2
        = (fs.map (fun l => [Event.runAction l, Event.schedUnwind])).join
            ++ [Event.finalCb s.args]
  ∧ (applyOps s (List.replicate (fs.length + 1) Op.unwind)).1.isFinished
      = true := by
  induction fs generalizing s with
  | nil =>
    simp [applyOps, applyOp, unwind, huw, hfin]
  | cons l ls ih =>
    set s1 : State :=
      { s with unwinding := ls.map Frame.cleanupAction, isUnwinding := true }
      with hs1
    have e1 : applyOp s Op.unwind = (s1, [Event.runAction l, Event.schedUnwind]) := by
      simp [applyOp, unwind, huw, hs1]
    have hrec := ih s1 (by simp [hs1]) (by simp [hs1, hfin])
    have hsplit : List.replicate ((l :: ls).length + 1) Op.unwind
        = Op.unwind :: List.replicate (ls.length + 1) Op.unwind := rfl
    rw [hsplit, applyOps_cons, e1]
    dsimp only
    refine ⟨?_, hrec.2⟩
    rw [hrec.1]
    simp [hs1]

lemma assignBlock_apply (f : Int → Option Int) (ci : List Int) (sum x : Int) :
    assignBlock f ci sum x = if x ∈ ci then some sum else f x := by
  induction ci generalizing f with
  | nil => simp [assignBlock]
  | cons c cs ih =>
    show assignBlock (setStep f c sum) cs sum x = _
    rw [ih]
    by_cases hx : x ∈ cs
    · simp [hx]
    · by_cases hc : x = c <;> simp [setStep, hx, hc]

lemma assignAll_snd (f : Int → Option Int) (sum : Int)
    (pairs : List (List Int × Int)) :
    (assignAll f sum pairs).2 = sum + ((pairs.map (fun p => 1 + p.2)).sum) := by
  induction pairs generalizing f sum with
  | nil => simp [assignAll]
  | cons p rest ih =>
    cases p with
    | mk ci bs =>
      show (assignAll (assignBlock f ci sum) (sum + 1 + bs) rest).2 = _
      rw [ih]
      simp
      ring

lemma assignAll_not_mem (f : Int → Option Int) (sum : Int)
    (pairs : List (List Int × Int)) (v : Int)
    (h : ∀ j, j < pairs.length → v ∉ (pairs.getD j ([], 0)).1) :
    (assignAll f sum pairs).1 v = f v := by
  induction pairs generalizing f sum with
  | nil => simp [assignAll]
  | cons p rest ih =>
    cases p with
    | mk ci bs =>
      have h0 : v ∉ ci := by simpa using h 0 (by simp)
      have h' : ∀ j, j < rest.length → v ∉ (rest.getD j ([], 0)).1 := by
        intro j hj
        simpa [List.getD_cons_succ] using
          h (j + 1) (by simpa using Nat.succ_lt_succ hj)
      show (assignAll (assignBlock f ci sum) (sum + 1 + bs) rest).1 v = f v
      rw [ih _ _ h', assignBlock_apply, if_neg h0]

lemma assignAll_lookup (pairs : List (List Int × Int)) (f : Int → Option Int)
    (sum : Int) (v : Int) (k : Nat) (hk : k < pairs.length)
    (hv : v ∈ (pairs.getD k ([], 0)).1)
    (hafter : ∀ j, j < pairs.length → k < j → v ∉ (pairs.getD j ([], 0)).1) :
    (assignAll f sum pairs).1 v
      = some (sum + (((pairs.take k).map (fun p => 1 + p.2)).sum)) := by
  induction pairs generalizing f sum k with
  | nil => simp at hk
  | cons p rest ih =>
    cases p with
    | mk ci bs =>
      cases k with
      | zero =>
        have hv0 : v ∈ ci := by simpa using hv
        have hrest : ∀ j, j < rest.length → v ∉ (rest.getD j ([], 0)).1 := by
          intro j hj
          simpa [List.getD_cons_succ] using
            hafter (j + 1) (by simpa using Nat.succ_lt_succ hj) (Nat.succ_pos j)
        show (assignAll (assignBlock f ci sum) (sum + 1 + bs) rest).1 v = _
        rw [assignAll_not_mem _ _ _ _ hrest, assignBlock_apply, if_pos hv0]
        simp
      | succ k' =>
        have hk' : k' < rest.length := by simpa using hk
        have hv' : v ∈ (rest.getD k' ([], 0)).1 := by
          simpa [List.getD_cons_succ] using hv
        have hafter' :
            ∀ j, j < rest.length → k' < j → v ∉ (rest.getD j ([], 0)).1 := by
          intro j hj hkj
          simpa [List.getD_cons_succ] using
            hafter (j + 1) (by simpa using Nat.succ_lt_succ hj)
              (Nat.succ_lt_succ hkj)
        show (assignAll (assignBlock f ci sum) (sum + 1 + bs) rest).1 v = _
        rw [ih _ _ k' hk' hv' hafter']
        congr 1
        simp
        ring

lemma zip_getD (as : List (List Int)) (bs : List Int) (k : Nat)
    (h1 : k < as.length) (h2 : k < bs.length) :
    (as.zip bs).getD k ([], 0) = (as.getD k [], bs.getD k 0) := by
  induction as generalizing bs k with
  | nil => simp at h1
  | cons a rest ih =>
    cases bs with
    | nil => simp at h2
    | cons b bs' =>
      cases k with
      | zero => simp
      | succ k' =>
        simpa [List.getD_cons_succ] using
          ih bs' k' (by simpa using h1) (by simpa using h2)

lemma zip_take_snd_sum (as : List (List Int)) (bs : List Int) (k : Nat)
    (hlen : as.length = bs.length) :
    (((as.zip bs).take k).map (fun p => (1 : Int) + p.2)).sum
      = ((bs.take k).map (fun b => (1 : Int) + b)).sum := by
  induction as generalizing bs k with
  | nil =>
    have : bs = [] := by
      cases bs with
      | nil => rfl
      | cons b bs' => simp at hlen
    subst this
    simp
  | cons a rest ih =>
    cases bs with
    | nil => simp at hlen
    | cons b bs' =>
      cases k with
      | zero => simp
      | succ k' =>
        simp only [List.zip_cons_cons, List.take_succ_cons, List.map_cons,
          List.sum_cons]
        rw [ih bs' k' (by simpa using hlen)]

lemma zip_snd_sum (as : List (List Int)) (bs : List Int)
    (hlen : as.length = bs.length) :
    ((as.zip bs).map (fun p => (1 : Int) + p.2)).sum
      = (bs.map (fun b => (1 : Int) + b)).sum := by
  induction as generalizing bs with
  | nil =>
    have : bs = [] := by
      cases bs with
      | nil => rfl
      | cons b bs' => simp at hlen
    subst this
    simp
  | cons a rest ih =>
    cases bs with
    | nil => simp at hlen
    | cons b bs' => simp [ih bs' (by simpa using hlen)]

/-- Invoking callback(args) and then draining an unwind stack that holds
    only cleanup-action frames runs the actions top-down and then fires the
    terminal callback with the stored arguments. -/
lemma callback_drain (fs : List Nat) (s : State) (args : List JSVal)
    (huw : s.unwinding = fs.map Frame.cleanupAction)
    (hfin : s.isFinished = false) :
    (applyOps s
        (Op.callback args :: List.replicate (fs.length + 1) Op.unwind)).2
      = Event.schedUnwind ::
          ((fs.map (fun l => [Event.runAction l, Event.schedUnwind])).join
            ++ [Event.finalCb args]) := by
  rw [applyOps_cons]
  have hcb : applyOp s (Op.callback args)
      = ({ s with args := args, err := args.headD JSVal.undef },
         [Event.schedUnwind]) := rfl
  rw [hcb]
  dsimp only
  have hd := drain_cleanups fs
    { s with args := args, err := args.headD JSVal.undef }
    (by simpa using huw) (by simpa using hfin)
  rw [hd.1]
  simp

/-
  Claim theorems.
-/

/-- C1: the spec says an abort pending while waiting > 0 makes the next
    scheduled resumption, and likewise the next continuation invocation,
    call the step function with the abort error as its sole argument, the
    flag being consumed exactly once beforehand.  Evaluating the code at
    the failing input shows the scheduled step clears abort_with_error
    before reading it and therefore calls fn with null instead of the
    error, while the thenTo continuation passes the error but never clears
    the flag. -/
theorem sm_C1_abort_delivery_bug :
    (step { State.init with waiting := 1, abort_with_error := JSVal.num 7 }).2
      = [Event.callFn [JSVal.null]]
  ∧ (step { State.init with waiting := 1, abort_with_error := JSVal.num 7 }).1.abort_with_error
      = JSVal.null
  ∧ (contInvoke { done := false, target := 3 }
      { State.init with waiting := 1, abort_with_error := JSVal.num 7 }
      []).2.2 = [Event.callFn [JSVal.num 7]]
  ∧ (contInvoke { done := false, target := 3 }
      { State.init with waiting := 1, abort_with_error := JSVal.num 7 }
      []).2.1.abort_with_error = JSVal.num 7 := by
  exact ⟨by decide, by decide, by decide, by decide⟩

/-- C2 counterexample: a genuinely second invocation of a thenTo
    continuation (done is already true) made while an abort error is
    pending re-enters the step function, contradicting the claim that any
    second invocation is rejected without re-entering compiled code. -/
theorem sm_C2_cex :
    ((contInvoke (thenTo { State.init with waiting := 1 } 3).2
        (thenTo { State.init with waiting := 1 } 3).1 [JSVal.str "a"]).1.done
      = true)
  ∧ (contInvoke
      (contInvoke (thenTo { State.init with waiting := 1 } 3).2
        (thenTo { State.init with waiting := 1 } 3).1 [JSVal.str "a"]).1
      (abort
        (contInvoke (thenTo { State.init with waiting := 1 } 3).2
          (thenTo { State.init with waiting := 1 } 3).1 [JSVal.str "a"]).2.1
        (JSVal.num 7)).1
      [JSVal.str "b"]).2.2 = [Event.callFn [JSVal.num 7]] := by
  exact ⟨by decide, by decide⟩

/-- C2 amended: provided no abort error is pending at the moment of the
    second invocation, a continuation whose done flag is set does not
    re-enter the step function, leaves the continuation and every State
    field unchanged except for decrementing the waiting counter, and
    signals the violation as a console report rather than a thrown
    exception. -/
theorem sm_C2_second_invocation (c : Cont) (s : State) (args : List JSVal)
    (hdone : c.done = true)
    (habort : truthy s.abort_with_error = false) :
    (contInvoke c s args).1 = c
  ∧ (contInvoke c s args).2.1 = { s with waiting := s.waiting - 1 }
  ∧ (contInvoke c s args).2.2
      = [Event.report "Callback called repeatedly!"] := by
  have h1 : truthy ({ s with waiting := s.waiting - 1 } : State).abort_with_error
      = false := by simpa using habort
  refine ⟨?_, ?_, ?_⟩ <;> simp [contInvoke, h1, hdone]

theorem sm_C2_second_invocation_witness :
    (Cont.mk true 3).done = true
  ∧ truthy State.init.abort_with_error = false
  ∧ (contInvoke (Cont.mk true 3) State.init [JSVal.str "x"]).2.2
      = [Event.report "Callback called repeatedly!"] :=
  ⟨by decide, by decide,
    (sm_C2_second_invocation (Cont.mk true 3) State.init [JSVal.str "x"]
      (by decide) (by decide)).2.2⟩

/-- C3: callback(null, "ok") on an empty unwind stack fires the terminal
    callback exactly once with (null, "ok") and sets isFinished; afterwards
    no sequence of operations (in particular no further callback call) can
    ever emit the terminal callback event again. -/
theorem sm_C3_terminal_once :
    (applyOps State.init
        [Op.callback [JSVal.null, JSVal.str "ok"], Op.unwind]).2
      = [Event.schedUnwind, Event.finalCb [JSVal.null, JSVal.str "ok"]]
  ∧ (applyOps State.init
        [Op.callback [JSVal.null, JSVal.str "ok"], Op.unwind]).1.isFinished
      = true
  ∧ ∀ (ops : List Op) (args : List JSVal),
      Event.finalCb args ∉
        (applyOps
          (applyOps State.init
            [Op.callback [JSVal.null, JSVal.str "ok"], Op.unwind]).1
          ops).2 := by
  refine ⟨by decide, by decide, ?_⟩
  intro ops args
  exact (applyOps_finished _ ops (by decide)).2 args

/-- C4: for any jump table built from (id, cases, blockSizes) with equal
    lengths, a case value of block k (appearing in no later block) maps to
    id + 1 + the sum over j < k of (1 + blockSizes[j]), and beyondID is
    id + 1 + the total such sum; in particular JumpTable(sm, 10,
    [[1,2],[3]], [5,7]) yields stepIds 1 = 11, 2 = 11, 3 = 17 and
    beyondID = 25. -/
theorem sm_C4_layout (id : Int) (cases : List (List Int))
    (blockSizes : List Int) (k : Nat) (v : Int)
    (hlen : cases.length = blockSizes.length)
    (hk : k < cases.length)
    (hv : v ∈ cases.getD k [])
    (hafter : ∀ j, j < cases.length → k < j → v ∉ cases.getD j []) :
    (JumpTable.make id cases blockSizes).stepIDs v
        = some (id + 1 + ((blockSizes.take k).map (fun b => 1 + b)).sum)
  ∧ (JumpTable.make id cases blockSizes).beyondID
        = id + 1 + (blockSizes.map (fun b => 1 + b)).sum
  ∧ (JumpTable.make 10 [[1, 2], [3]] [5, 7]).stepIDs 1 = some 11
  ∧ (JumpTable.make 10 [[1, 2], [3]] [5, 7]).stepIDs 2 = some 11
  ∧ (JumpTable.make 10 [[1, 2], [3]] [5, 7]).stepIDs 3 = some 17
  ∧ (JumpTable.make 10 [[1, 2], [3]] [5, 7]).beyondID = 25 := by
  have hzlen : (cases.zip blockSizes).length = cases.length := by
    simp [List.length_zip, hlen]
  refine ⟨?_, ?_, by decide, by decide, by decide, by decide⟩
  · have hk2 : k < blockSizes.length := hlen ▸ hk
    have hkz : k < (cases.zip blockSizes).length := by
      rw [hzlen]; exact hk
    have hvz : v ∈ ((cases.zip blockSizes).getD k ([], 0)).1 := by
      rw [zip_getD cases blockSizes k hk hk2]; exact hv
    have hafterz : ∀ j, j < (cases.zip blockSizes).length → k < j →
        v ∉ ((cases.zip blockSizes).getD j ([], 0)).1 := by
      intro j hj hkj
      rw [zip_getD cases blockSizes j (hzlen ▸ hj) (hlen ▸ hzlen ▸ hj)]
      exact hafter j (hzlen ▸ hj) hkj
    show (assignAll (fun _ => none) (id + 1) (cases.zip blockSizes)).1 v = _
    rw [assignAll_lookup _ _ _ _ k hkz hvz hafterz,
      zip_take_snd_sum cases blockSizes k hlen]
  · show (assignAll (fun _ => none) (id + 1) (cases.zip blockSizes)).2 = _
    rw [assignAll_snd, zip_snd_sum cases blockSizes hlen]

theorem sm_C4_layout_witness :
    (([[1, 2], [3]] : List (List Int)).length = ([5, 7] : List Int).length)
  ∧ (JumpTable.make 10 [[1, 2], [3]] [5, 7]).stepIDs 1
      = some (10 + 1
          + ((([5, 7] : List Int).take 0).map (fun b => 1 + b)).sum) :=
  ⟨by decide,
    (sm_C4_layout 10 [[1, 2], [3]] [5, 7] 0 1 (by decide) (by decide)
      (by decide) (by decide)).1⟩

/-- C5: jumpToCase on an unmapped case value fails with the unhandled-case
    error naming the branch-site id and the value, and the state at the
    throw differs from the input state neither in waiting nor in id (only
    the phi push has happened). -/
theorem sm_C5_unhandled_case (jt : JumpTable) (s : State) (v : Int)
    (hunmapped : jt.stepIDs v = none) :
    jumpToCase jt s v
        = Except.error (jumpErrMsg jt.id v, pushPhi s jt.beyondID)
  ∧ (pushPhi s jt.beyondID).waiting = s.waiting
  ∧ (pushPhi s jt.beyondID).id = s.id
  ∧ jumpErrMsg jt.id v
      = "Unhandled case '" ++ toString v ++ "' at step " ++ toString jt.id := by
  refine ⟨?_, by simp [pushPhi], by simp [pushPhi], rfl⟩
  simp [jumpToCase, hunmapped, truthyOptInt]

theorem sm_C5_unhandled_case_witness :
    (JumpTable.make 10 [[1, 2], [3]] [5, 7]).stepIDs 99 = none
  ∧ jumpToCase (JumpTable.make 10 [[1, 2], [3]] [5, 7]) State.init 99
      = Except.error (jumpErrMsg 10 99,
          pushPhi State.init
            (JumpTable.make 10 [[1, 2], [3]] [5, 7]).beyondID) :=
  ⟨by decide,
    (sm_C5_unhandled_case (JumpTable.make 10 [[1, 2], [3]] [5, 7])
      State.init 99 (by decide)).1⟩

/-- C6: registering cleanup actions and then calling callback(null) runs
    the actions in strict LIFO order relative to registration, each exactly
    once, all before the terminal callback fires with (null). -/
theorem sm_C6_cleanup_lifo (labels : List Nat) :
    (applyOps State.init
        (labels.map Op.pushCleanupAction
          ++ (Op.callback [JSVal.null]
              :: List.replicate (labels.length + 1) Op.unwind))).2
      = Event.schedUnwind ::
          ((labels.reverse.map
              (fun l => [Event.runAction l, Event.schedUnwind])).join
            ++ [Event.finalCb [JSVal.null]]) := by
  rw [applyOps_append, applyOps_pushCleanups]
  dsimp only
  rw [show labels.length = labels.reverse.length from
    (List.length_reverse labels).symm]
  rw [callback_drain labels.reverse _ [JSVal.null]
    (by simp [State.init, List.map_reverse]) (by simp [State.init])]
  simp

/-- C7 counterexample: abort(7) with waiting = 0 but a pending error-step
    frame on the unwind stack does not deliver the terminal callback with
    the error; the unwind tick instead schedules a resumption of the catch
    handler, contradicting the claim that completion happens without any
    further resumption. -/
theorem sm_C7_cex :
    ({ State.init with unwinding := [Frame.errorStep 5] } : State).waiting = 0
  ∧ (abort { State.init with unwinding := [Frame.errorStep 5] }
      (JSVal.num 7)).2 = [Event.schedUnwind]
  ∧ (unwind (abort { State.init with unwinding := [Frame.errorStep 5] }
      (JSVal.num 7)).1).2 = [Event.schedStep]
  ∧ (unwind (abort { State.init with unwinding := [Frame.errorStep 5] }
      (JSVal.num 7)).1).1.isFinished = false := by
  exact ⟨by decide, by decide, by decide, by decide⟩

/-- C7 amended: abort(err) while waiting > 0 records err into
    abort_with_error and changes nothing else; abort(err) while waiting is
    not positive immediately invokes callback(err), and when the unwind
    stack is empty on a still-live machine the scheduled unwind tick then
    invokes the terminal callback with (err) and finishes, with no
    resumption scheduled. -/
theorem sm_C7_abort (s : State) (e : JSVal) :
    (s.waiting > 0 → abort s e = ({ s with abort_with_error := e }, []))
  ∧ (¬ s.waiting > 0 → s.unwinding = [] → s.isFinished = false →
      (abort s e).2 = [Event.schedUnwind]
      ∧ (unwind (abort s e).1).2 = [Event.finalCb [e]]
      ∧ (unwind (abort s e).1).1.isFinished = true) := by
  constructor
  · intro h
    simp [abort, h]
  · intro h huw hfin
    have he : abort s e
        = ({ s with args := [e], err := e }, [Event.schedUnwind]) := by
      simp [abort, h, callback]
    rw [he]
    refine ⟨rfl, ?_, ?_⟩ <;> simp [unwind, huw, hfin]

theorem sm_C7_abort_witness :
    abort { State.init with waiting := 1 } (JSVal.num 7)
        = ({ State.init with waiting := 1, abort_with_error := JSVal.num 7 }, [])
  ∧ (unwind (abort State.init (JSVal.num 7)).1).2
      = [Event.finalCb [JSVal.num 7]] :=
  ⟨(sm_C7_abort { State.init with waiting := 1 } (JSVal.num 7)).1
      (by decide),
    ((sm_C7_abort State.init (JSVal.num 7)).2 (by decide) (by decide)
      (by decide)).2.1⟩

/-- C8: any positive number of pushErrorStep(i) calls on a machine with no
    error frame and no installed catch for i leaves exactly one error-step
    frame for i on the unwind stack; pushErrorStep is a no-op whenever the
    id is already in installed_catches. -/
theorem sm_C8_no_duplicate_catch (s : State) (i : Int) (n : Nat)
    (hn : 0 < n)
    (hfresh : i ∉ s.installed_catches)
    (hzero : countErrorFrames i s.unwinding = 0) :
    countErrorFrames i (iterPushError s i n).unwinding = 1
  ∧ ∀ (t : State) (j : Int), j ∈ t.installed_catches →
      pushErrorStep t j = t := by
  refine ⟨?_, fun t j hj => pushErrorStep_of_installed t j hj⟩
  rw [iterPushError_eq_push s i n hn]
  unfold pushErrorStep
  rw [if_neg hfresh]
  simp [countErrorFrames] at hzero ⊢
  simp [List.count_cons, hzero]

theorem sm_C8_no_duplicate_catch_witness :
    0 < 2
  ∧ ((5 : Int) ∉ State.init.installed_catches)
  ∧ countErrorFrames 5 State.init.unwinding = 0
  ∧ countErrorFrames 5 (iterPushError State.init 5 2).unwinding = 1 :=
  ⟨by decide, by decide, by decide,
    (sm_C8_no_duplicate_catch State.init 5 2 (by decide) (by decide)
      (by decide)).1⟩

/-- C9 counterexample: a second jumpTable request for the same branch-site
    id that again supplies the cases argument constructs a fresh table
    (executes new JumpTable) instead of reusing the cached one. -/
theorem sm_C9_cex :
    (smJumpTable
      (smJumpTable (fun _ => none) 10 (some [[1]]) [2]).2.1
      10 (some [[1]]) [2]).2.2 = true := rfl

/-- C9 amended: a jumpTable request without cases returns the cached table
    and constructs nothing; a request supplying cases always constructs a
    new table and overwrites the cache entry, so a table is built at most
    once per branch site only under the calling convention that cases are
    supplied on the first request alone, later (cases-less) requests
    reusing the cached table. -/
theorem sm_C9_cached (cache : Int → Option JumpTable) (id : Int)
    (cs : List (List Int)) (bs bs2 : List Int) :
    smJumpTable cache id none bs2 = (cache id, cache, false)
  ∧ (smJumpTable cache id (some cs) bs).2.2 = true
  ∧ (smJumpTable cache id (some cs) bs).1 = some (JumpTable.make id cs bs)
  ∧ (smJumpTable (smJumpTable cache id (some cs) bs).2.1 id none bs2).1
      = some (JumpTable.make id cs bs)
  ∧ (smJumpTable (smJumpTable cache id (some cs) bs).2.1 id none bs2).2.2
      = false := by
  refine ⟨rfl, rfl, rfl, ?_, rfl⟩
  simp [smJumpTable]

/-- C10: pushErrorStep(i) permanently marks i in installed_catches; after
    any further sequence of machine operations (including unwind ticks
    that pop the frame) the id is still marked and a later pushErrorStep(i)
    leaves the state completely unchanged. -/
theorem sm_C10_installed_catches_permanent (s : State) (i : Int)
    (ops : List Op) :
    i ∈ (applyOps (pushErrorStep s i) ops).1.installed_catches
  ∧ pushErrorStep (applyOps (pushErrorStep s i) ops).1 i
      = (applyOps (pushErrorStep s i) ops).1 := by
  have h1 := applyOps_installed (pushErrorStep s i) ops i
    (pushErrorStep_mem s i)
  exact ⟨h1, pushErrorStep_of_installed _ _ h1⟩

end Cspjs
